import Mathlib

/-!
# Verification of the DTE device-tree decoding/diffing core

Shallow embedding of the core of the DTE repository:
* the value/tree data model (`src/src/DeviceTree.cpp`, `DeviceTree.h`),
* the diff engine (`src/src/DeviceTreeDiff.cpp`),
* the binary (DTB) and text (DTS) decoders (`src/src/DeviceTreeParser.cpp`),
* path construction and path lookup (`src/src/DeviceTree.cpp`).

C++ `std::map` iteration is modelled by a sorted association list
(`insertSorted` / `toMap`), `std::string` by `String`, byte buffers by
`List Nat`, and the recursive diff walk by a fuel-indexed structural
recursion whose fuel is always taken large enough (the C++ recursion
descends strictly into subtrees, so any fuel at least the tree size is
exact).
-/

namespace DTE

/-- `PropertyValue` from `DeviceTree.h`: a `std::variant` over a string,
a byte vector (`uint8_t`), a 32-bit cell vector and a 64-bit cell vector.
Bytes and cells are `Nat`s; the creation sites reduce modulo the machine
width where C++ would truncate. -/
inductive PropertyValue where
  | str (s : String)
  | bytes (bs : List Nat)
  | cells (cs : List Nat)
  | cells64 (cs : List Nat)
  deriving DecidableEq, Repr

/-- `DeviceTreeProperty`: a named `PropertyValue`. -/
structure DeviceTreeProperty where
  name : String
  value : PropertyValue
  deriving DecidableEq, Repr

/-- `DeviceTreeNode`: name, ordered properties, ordered children.  The C++
parent back-pointer is represented implicitly by a node's position in the
tree (an index path from the root). -/
inductive DeviceTreeNode where
  | mk (name : String) (properties : List DeviceTreeProperty)
       (children : List DeviceTreeNode)

def DeviceTreeNode.name : DeviceTreeNode → String
  | .mk n _ _ => n

def DeviceTreeNode.properties : DeviceTreeNode → List DeviceTreeProperty
  | .mk _ ps _ => ps

def DeviceTreeNode.children : DeviceTreeNode → List DeviceTreeNode
  | .mk _ _ cs => cs

/-- `DeviceTree`: owns a root node and a source identifier. -/
structure DeviceTree where
  root : DeviceTreeNode
  sourceFile : String

/-- `DiffType` from `DeviceTreeDiff.h`. -/
inductive DiffType where
  | Added
  | Removed
  | Modified
  | Unchanged
  deriving DecidableEq, Repr

/-- `DiffEntry` from `DeviceTreeDiff.h`; in C++ the string fields default
to empty, and node-level entries leave `propertyName`, `oldValue`,
`newValue` empty. -/
structure DiffEntry where
  type : DiffType
  path : String
  propertyName : String
  oldValue : String
  newValue : String
  description : String
  deriving DecidableEq, Repr

/-! ## Value rendering (`DeviceTreeProperty::getValueAsString`) -/

def DeviceTreeProperty.isString (p : DeviceTreeProperty) : Bool :=
  match p.value with
  | .str _ => true
  | _ => false

def DeviceTreeProperty.isBinary (p : DeviceTreeProperty) : Bool :=
  match p.value with
  | .bytes _ => true
  | _ => false

def DeviceTreeProperty.isCells (p : DeviceTreeProperty) : Bool :=
  match p.value with
  | .cells _ => true
  | _ => false

def DeviceTreeProperty.isCells64 (p : DeviceTreeProperty) : Bool :=
  match p.value with
  | .cells64 _ => true
  | _ => false

def DeviceTreeProperty.getValueAsBinary (p : DeviceTreeProperty) : List Nat :=
  match p.value with
  | .bytes bs => bs
  | _ => []

def DeviceTreeProperty.getValueAsCells (p : DeviceTreeProperty) : List Nat :=
  match p.value with
  | .cells cs => cs
  | _ => []

def DeviceTreeProperty.getValueAsCells64 (p : DeviceTreeProperty) : List Nat :=
  match p.value with
  | .cells64 cs => cs
  | _ => []

/-- Lowercase hexadecimal rendering of a number, as `std::hex` prints it
(no leading zeros, `0` for zero). -/
def hexStr (n : Nat) : String :=
  String.mk (Nat.toDigits 16 n)

/-- `std::setw(2) << std::setfill('0')` applied to a hex byte. -/
def hexByteStr (n : Nat) : String :=
  let s := hexStr n
  if s.length = 1 then "0" ++ s else s

def joinSpaced : List String → String
  | [] => ""
  | [s] => s
  | s :: rest => s ++ " " ++ joinSpaced rest

/-- `DeviceTreeProperty::getValueAsString` (`DeviceTree.cpp` lines 39-72):
a string is wrapped in double quotes, bytes are rendered as
`[0xaa 0xbb]`, 32 and 64-bit cells as `<0x1 0x2>`. -/
def DeviceTreeProperty.getValueAsString (p : DeviceTreeProperty) : String :=
  match p.value with
  | .str s => "\"" ++ s ++ "\""
  | .bytes bs => "[" ++ joinSpaced (bs.map (fun b => "0x" ++ hexByteStr b)) ++ "]"
  | .cells cs => "<" ++ joinSpaced (cs.map (fun c => "0x" ++ hexStr c)) ++ ">"
  | .cells64 cs => "<" ++ joinSpaced (cs.map (fun c => "0x" ++ hexStr c)) ++ ">"

/-- `DeviceTreeDiff::propertiesEqual` (`DeviceTreeDiff.cpp` lines 357-368):
same-kind values are compared through the corresponding accessor
(strings through their quoted rendering), differing kinds are unequal. -/
def propertiesEqual (p q : DeviceTreeProperty) : Bool :=
  if p.isString && q.isString then p.getValueAsString == q.getValueAsString
  else if p.isBinary && q.isBinary then p.getValueAsBinary == q.getValueAsBinary
  else if p.isCells && q.isCells then p.getValueAsCells == q.getValueAsCells
  else if p.isCells64 && q.isCells64 then p.getValueAsCells64 == q.getValueAsCells64
  else false

/-! ## `std::map<std::string, _>` as a sorted association list

`std::map` iterates keys in strictly increasing `operator<` order, and
`m[k] = v` overwrites the value stored under an existing key.
`std::string::operator<` compares the UTF-8 bytes lexicographically,
which orders strings exactly as their codepoint sequences do. -/

def charListLt : List Char → List Char → Bool
  | _, [] => false
  | [], _ :: _ => true
  | c :: cs, d :: ds =>
    if c.toNat < d.toNat then true
    else if d.toNat < c.toNat then false
    else charListLt cs ds

def strLt (a b : String) : Bool :=
  charListLt a.data b.data

def insertSorted {α : Type} (k : String) (v : α) :
    List (String × α) → List (String × α)
  | [] => [(k, v)]
  | (k', v') :: rest =>
    if strLt k k' then (k, v) :: (k', v') :: rest
    else if k == k' then (k, v) :: rest
    else (k', v') :: insertSorted k v rest

/-- Build the map by repeated `m[key] = value`, as both `compareNodes`
and `compareProperties` do. -/
def toMap {α : Type} (l : List (String × α)) : List (String × α) :=
  l.foldl (fun m kv => insertSorted kv.1 kv.2 m) []

/-- `map::find` (first — and under sortedness only — entry with the key). -/
def lookupMap {α : Type} (k : String) (m : List (String × α)) : Option α :=
  (m.find? (fun kv => kv.1 == k)).map (fun kv => kv.2)

def concatMap {α β : Type} (f : α → List β) : List α → List β
  | [] => []
  | a :: l => f a ++ concatMap f l

/-! ## Diff engine (`DeviceTreeDiff.cpp`) -/

/-- The name-keyed `std::map` over a node's properties
(`basePropMap` / `overlayPropMap` in `compareProperties`). -/
def propMapOf (n : DeviceTreeNode) : List (String × DeviceTreeProperty) :=
  toMap (n.properties.map (fun p => (p.name, p)))

/-- The name-keyed `std::map` over a node's children
(`baseChildren` / `overlayChildren` in `compareNodes`). -/
def childMapOf (n : DeviceTreeNode) : List (String × DeviceTreeNode) :=
  toMap (n.children.map (fun c => (c.name, c)))

/-- `DeviceTreeDiff::compareProperties` (lines 295-351): key both
property lists by name, walk the overlay map emitting `Added`/`Modified`
entries, then the base map emitting `Removed` entries. -/
def compareProperties (b ov : DeviceTreeNode) (path : String) : List DiffEntry :=
  concatMap (fun kv =>
    match lookupMap kv.1 (propMapOf b) with
    | none =>
      [{ type := .Added, path := path, propertyName := kv.1, oldValue := "",
         newValue := kv.2.getValueAsString,
         description := "Property added: " ++ kv.1 }]
    | some bp =>
      if propertiesEqual bp kv.2 then []
      else
        [{ type := .Modified, path := path, propertyName := kv.1,
           oldValue := bp.getValueAsString, newValue := kv.2.getValueAsString,
           description := "Property modified: " ++ kv.1 }]) (propMapOf ov)
  ++ concatMap (fun kv =>
      if (lookupMap kv.1 (propMapOf ov)).isNone then
        [{ type := .Removed, path := path, propertyName := kv.1,
           oldValue := kv.2.getValueAsString, newValue := "",
           description := "Property removed: " ++ kv.1 }]
      else []) (propMapOf b)

/-- `DeviceTreeDiff::compareNodes` (lines 218-293), fuel-indexed.  The
C++ recursion always terminates on finite trees (every recursive call
descends into a child), so any fuel at least the recursion depth gives
the exact C++ result; `generateDiff` below supplies such a fuel. -/
def compareNodes :
    Nat → Option DeviceTreeNode → Option DeviceTreeNode → String → List DiffEntry
  | 0, _, _, _ => []
  | _ + 1, none, none, _ => []
  | fuel + 1, none, some ov, path =>
    { type := .Added, path := path, propertyName := "", oldValue := "",
      newValue := "", description := "Node added: " ++ ov.name } ::
    concatMap (fun c => compareNodes fuel none (some c) (path ++ "/" ++ c.name))
      ov.children
  | fuel + 1, some b, none, path =>
    { type := .Removed, path := path, propertyName := "", oldValue := "",
      newValue := "", description := "Node removed: " ++ b.name } ::
    concatMap (fun c => compareNodes fuel (some c) none (path ++ "/" ++ c.name))
      b.children
  | fuel + 1, some b, some ov, path =>
    compareProperties b ov path
    ++ concatMap (fun kv =>
        match lookupMap kv.1 (childMapOf b) with
        | none => compareNodes fuel none (some kv.2) (path ++ "/" ++ kv.1)
        | some bc => compareNodes fuel (some bc) (some kv.2) (path ++ "/" ++ kv.1))
        (childMapOf ov)
    ++ concatMap (fun kv =>
        if (lookupMap kv.1 (childMapOf ov)).isNone then
          compareNodes fuel (some kv.2) none (path ++ "/" ++ kv.1)
        else []) (childMapOf b)

mutual

def nodeSize : DeviceTreeNode → Nat
  | .mk _ _ cs => 1 + nodesSize cs

def nodesSize : List DeviceTreeNode → Nat
  | [] => 0
  | c :: rest => nodeSize c + nodesSize rest

end

/-- `DeviceTreeDiff::isValid` (lines 188-190): both trees non-null. -/
def diffIsValid (base overlay : Option DeviceTree) : Bool :=
  base.isSome && overlay.isSome

/-- `DeviceTreeDiff::generateDiffInternal` (lines 206-216): empty result
unless both trees are present, otherwise compare the roots at path `"/"`.
The fuel exceeds the recursion depth, which is bounded by either tree's
size, so the result is the exact C++ diff. -/
def generateDiff (base overlay : Option DeviceTree) : List DiffEntry :=
  match base, overlay with
  | some b, some ov =>
    compareNodes (nodeSize b.root + nodeSize ov.root + 1) (some b.root)
      (some ov.root) "/"
  | _, _ => []

/-! ## Binary (DTB) decoder (`DeviceTreeParser.cpp` lines 13-248)

Buffers are byte lists.  C++ reads `uint32_t`s through the host's
little-endian layout and `__builtin_bswap32`s every value when the
byte-swapped magic was detected, so `readU32 true` is the big-endian and
`readU32 false` the little-endian interpretation of four bytes.  An
out-of-range byte read is modelled as `0` (the C++ would read past the
buffer there); the theorems below only use in-bounds inputs. -/

def byteAt (data : List Nat) (i : Nat) : Nat :=
  (data.get? i).getD 0

def readU32 (swap : Bool) (data : List Nat) (off : Nat) : Nat :=
  if swap then
    byteAt data (off + 3) + 256 * (byteAt data (off + 2) +
      256 * (byteAt data (off + 1) + 256 * byteAt data off))
  else
    byteAt data off + 256 * (byteAt data (off + 1) +
      256 * (byteAt data (off + 2) + 256 * byteAt data (off + 3)))

/-- The NUL-terminated byte string starting at `off`. -/
def cString (data : List Nat) (off : Nat) : List Nat :=
  (data.drop off).takeWhile (fun b => b != 0)

def stringOfBytes (bs : List Nat) : String :=
  String.mk (bs.map Char.ofNat)

/-- The value-classification step of `DTBParser::parseDTBProperty`
(lines 224-244): a zero-length value is an empty string; a value ending
in NUL whose other bytes are printable ASCII (the C++ `char` is signed,
so bytes 128-255 fail `c >= 32`) is a string without the NUL; anything
else is kept as the raw bytes. -/
def classifyPropValue (val : List Nat) : PropertyValue :=
  if val.length = 0 then .str ""
  else if val.getLast? = some 0 then
    if (val.take (val.length - 1)).all (fun c => 32 ≤ c && c ≤ 126) then
      .str (stringOfBytes (val.take (val.length - 1)))
    else .bytes val
  else .bytes val

/-- `DeviceTreeNode::addProperty`: remove any property with the same
name, then append. -/
def addProperty (ps : List DeviceTreeProperty) (p : DeviceTreeProperty) :
    List DeviceTreeProperty :=
  ps.filter (fun q => q.name != p.name) ++ [p]

/-- `DTBParser::parseDTBProperty` (lines 199-248): reject a name offset
at or above `0x1000000` and an empty resolved name (both C++ throws,
modelled as `none`); otherwise classify the `len` value bytes and return
the property together with the advanced offset. -/
def parseDTBProperty (data : List Nat) (offset stringsOffset : Nat)
    (swap : Bool) : Option (DeviceTreeProperty × Nat) :=
  let len := readU32 swap data (offset + 4)
  let nameoff := readU32 swap data (offset + 8)
  if nameoff ≥ 0x1000000 then none
  else
    let propName := stringOfBytes (cString data (stringsOffset + nameoff))
    if propName = "" then none
    else
      let valBytes := (data.drop (offset + 12)).take len
      some (⟨propName, classifyPropValue valBytes⟩,
            offset + 12 + ((len + 3) / 4) * 4)

mutual

/-- `DTBParser::parseDTBNode` (lines 143-197), fuel-indexed (running out
of fuel, like a C++ exception, is `none`).  `nextOffset` is the value of
the by-reference argument on entry; at both call sites
(`parseDTBFile` and the recursive call) it equals `offset`.  The
returned offset is the final `currentOffset` that the C++ writes back
through the reference. -/
def parseDTBNode (data : List Nat) :
    Nat → Nat → Nat → Nat → Bool → Option (DeviceTreeNode × Nat)
  | 0, _, _, _, _ => none
  | fuel + 1, offset, nextOffset, stringsOffset, swap =>
    if readU32 swap data offset = 1 then
      let nameBytes := cString data (offset + 4)
      let rawName := stringOfBytes nameBytes
      let name := if rawName = "" ∨ rawName = "/" then "/" else rawName
      let nameWords := (nameBytes.length + 1 + 3) / 4
      match parseDTBLoop data fuel (offset + 4 + nameWords * 4) nextOffset
          stringsOffset swap [] [] with
      | some (ps, cs, finalOff) => some (.mk name ps cs, finalOff)
      | none => none
    else none
  termination_by structural fuel => fuel

/-- The token loop of `parseDTBNode` (lines 167-190): it runs `while
(currentOffset < nextOffset)`, dispatching on the token — `PROP` parses
a property, `BEGIN_NODE` recurses (passing `currentOffset` for both the
offset and the by-reference `nextOffset`), `END_NODE` advances past the
token and breaks, `END` breaks, anything else is skipped as one word. -/
def parseDTBLoop (data : List Nat) :
    Nat → Nat → Nat → Nat → Bool → List DeviceTreeProperty →
    List DeviceTreeNode →
    Option (List DeviceTreeProperty × List DeviceTreeNode × Nat)
  | 0, cur, next, _, _, ps, cs =>
    if cur < next then none else some (ps, cs, cur)
  | fuel + 1, cur, next, stringsOffset, swap, ps, cs =>
    if cur < next then
      let tok := readU32 swap data cur
      if tok = 2 then
        match parseDTBProperty data cur stringsOffset swap with
        | some (p, cur') =>
          parseDTBLoop data fuel cur' next stringsOffset swap
            (addProperty ps p) cs
        | none => none
      else if tok = 1 then
        match parseDTBNode data fuel cur cur stringsOffset swap with
        | some (child, cur') =>
          parseDTBLoop data fuel cur' next stringsOffset swap ps
            (cs ++ [child])
        | none => none
      else if tok = 3 then some (ps, cs, cur + 4)
      else if tok = 9 then some (ps, cs, cur)
      else parseDTBLoop data fuel (cur + 4) next stringsOffset swap ps cs
    else some (ps, cs, cur)
  termination_by structural fuel => fuel

end

/-- The node name `parseDTBNode` reads at a `BEGIN_NODE` token: the
NUL-terminated string after the token, with the empty name (and `"/"`)
normalised to `"/"`. -/
def dtbNodeNameAt (data : List Nat) (offset : Nat) : String :=
  let raw := stringOfBytes (cString data (offset + 4))
  if raw = "" ∨ raw = "/" then "/" else raw

/-- The offset just past a `BEGIN_NODE` token and its padded name. -/
def dtbNameEnd (data : List Nat) (offset : Nat) : Nat :=
  offset + 4 + ((cString data (offset + 4)).length + 1 + 3) / 4 * 4

/-- `DTBParser::parseDTBFile` (lines 44-141): header validation (magic
in either byte order, exact `totalsize`, offset bounds, version at
least 16) followed by the structure-block parse starting at
`off_dt_struct`, with `nextOffset` initialised to the same value. -/
def parseDTBFile (data : List Nat) : Option DeviceTree :=
  if data.length < 40 then none
  else
    let magic := readU32 false data 0
    if magic = 0xd00dfeed ∨ magic = 0xedfe0dd0 then
      let swap := magic = 0xedfe0dd0
      let totalsize := readU32 swap data 4
      let offStruct := readU32 swap data 8
      let offStrings := readU32 swap data 12
      let offRsvmap := readU32 swap data 16
      let version := readU32 swap data 20
      let sizeStrings := readU32 swap data 32
      let sizeStruct := readU32 swap data 36
      if totalsize ≠ data.length then none
      else if offStruct ≥ data.length ∨ offStrings ≥ data.length ∨
          offRsvmap ≥ data.length then none
      else if offStruct + sizeStruct > data.length then none
      else if offStrings + sizeStrings > data.length then none
      else if version < 16 then none
      else
        match parseDTBNode data (data.length + 1) offStruct offStruct
            offStrings swap with
        | some (root, _) => some ⟨root, ""⟩
        | none => none
    else none

/-! ## Text (DTS) decoder (`DeviceTreeParser.cpp` lines 251-483)

The C++ parser is line-oriented; the input stream is modelled as the
list of its lines.  String search/trim helpers mirror `std::string`
operations on the character lists underlying `String`. -/

def isBlankChar (c : Char) : Bool :=
  c = ' ' || c = '\t'

def trimLeftChars (cs : List Char) : List Char :=
  cs.dropWhile isBlankChar

/-- Trim of both ends, as the C++ `find_first_not_of(" \t")` /
`find_last_not_of(" \t")` pairs do. -/
def trimChars (cs : List Char) : List Char :=
  ((cs.dropWhile isBlankChar).reverse.dropWhile isBlankChar).reverse

def trimLeftStr (s : String) : String :=
  String.mk (trimLeftChars s.data)

/-- `std::string::find(pat) != npos`. -/
def containsSub (pat : List Char) : List Char → Bool
  | [] => pat.isEmpty
  | c :: rest => pat.isPrefixOf (c :: rest) || containsSub pat rest

def strContainsSub (s pat : String) : Bool :=
  containsSub pat.data s.data

/-- Split at the first occurrence of `ch`: the text before it and the
text after it (`substr(0, pos)` / `substr(pos + 1)`). -/
def breakOnChar (ch : Char) : List Char → Option (List Char × List Char)
  | [] => none
  | c :: rest =>
    if c = ch then some ([], rest)
    else
      match breakOnChar ch rest with
      | some (a, b) => some (c :: a, b)
      | none => none

/-- `std::getline` on a delimiter, as used for splitting cell/byte lists
and path components.  The C++ loop produces no trailing empty token; the
extra trailing `""` produced here is harmless because every caller
discards empty tokens, exactly as the C++ does. -/
def splitOnCharAux (delim : Char) : List Char → List Char → List String
  | [], acc => [String.mk acc.reverse]
  | c :: rest, acc =>
    if c = delim then String.mk acc.reverse :: splitOnCharAux delim rest []
    else splitOnCharAux delim rest (c :: acc)

def hexDigitVal (c : Char) : Option Nat :=
  if '0' ≤ c ∧ c ≤ '9' then some (c.toNat - 48)
  else if 'a' ≤ c ∧ c ≤ 'f' then some (c.toNat - 87)
  else if 'A' ≤ c ∧ c ≤ 'F' then some (c.toNat - 55)
  else none

def hexAccum (acc : Nat) : List Char → Nat
  | [] => acc
  | c :: rest =>
    match hexDigitVal c with
    | some d => hexAccum (16 * acc + d) rest
    | none => acc

/-- `std::stoul(tok, nullptr, 16)` on a whitespace-free token: an
optional `0x`/`0X` prefix (consumed only when followed by a hex digit),
then a maximal run of hex digits; `none` (the C++ throw) when no digit
can be consumed.  Signs are not modelled; the tokens here come from
splitting bracketed value lists on spaces. -/
def stoulHex (cs : List Char) : Option Nat :=
  let body :=
    match cs with
    | c0 :: cx :: rest =>
      let digitNext :=
        match rest with
        | r :: _ => (hexDigitVal r).isSome
        | [] => false
      if c0 == '0' && (cx == 'x' || cx == 'X') && digitNext then rest
      else cs
    | _ => cs
  match body with
  | c :: _ => if (hexDigitVal c).isSome then some (hexAccum 0 body) else none
  | [] => none

def parseHexList : List String → Option (List Nat)
  | [] => some []
  | t :: rest =>
    match stoulHex t.data with
    | some v => (parseHexList rest).map (fun vs => v :: vs)
    | none => none

/-- The multi-line value continuation of `DTSParser::parseDTSValue`
(lines 470-480): keep appending whole lines until one contains `;`, of
which only the part before `;` is appended. -/
def collectMultiline (acc : List Char) : List String → List Char × List String
  | [] => (acc, [])
  | l :: rest =>
    match breakOnChar ';' l.data with
    | some (before, _) => (acc ++ before, rest)
    | none => collectMultiline (acc ++ l.data) rest

/-- Strip one trailing `;`, as lines 465-467 do. -/
def stripSemi (v : List Char) : List Char :=
  if v.getLast? = some ';' then v.dropLast else v

/-- `DTSParser::parseDTSValue` (lines 456-483): the text after the first
`=`, trimmed, with a trailing `;` removed; when it contains a
backslash, continuation lines are consumed.  Returns the value text and
the lines left in the stream. -/
def parseDTSValue (line : String) (rest : List String) :
    List Char × List String :=
  let after :=
    match breakOnChar '=' line.data with
    | some (_, a) => a
    | none => line.data
  let v := stripSemi (trimChars after)
  if v.contains '\\' then collectMultiline v rest else (v, rest)

/-- `DTSParser::parseDTSProperty` (lines 379-454): name before the first
`=` (throw — `none` — when empty), value via `parseDTSValue`, then
classification by delimiter: `"..."` string, `<...>` 32-bit cells,
`[...]` bytes (hex tokens; a bad token is the C++ throw, making the
property `none` and skipping it), anything else a bare string.  The
stored cells/bytes are truncated to the C++ element width. -/
def parseDTSProperty (line : String) (rest : List String) :
    Option DeviceTreeProperty × List String :=
  match breakOnChar '=' line.data with
  | none => (none, rest)
  | some (before, _) =>
    let propName := String.mk (trimChars before)
    if propName = "" then (none, rest)
    else
      let (v, rest') := parseDTSValue line rest
      if v = [] then (some ⟨propName, .str ""⟩, rest')
      else if v.head? = some '"' ∧ v.getLast? = some '"' then
        (some ⟨propName, .str (String.mk ((v.drop 1).dropLast))⟩, rest')
      else if v.head? = some '<' ∧ v.getLast? = some '>' then
        let toks := ((splitOnCharAux ' ' ((v.drop 1).dropLast) []).filter
          (fun t => t ≠ "")).map
          (fun t => if t.data.take 2 = ['0', 'x'] then
            String.mk (t.data.drop 2) else t)
        match parseHexList toks with
        | some vals => (some ⟨propName, .cells (vals.map (· % 2 ^ 32))⟩, rest')
        | none => (none, rest')
      else if v.head? = some '[' ∧ v.getLast? = some ']' then
        let toks := ((splitOnCharAux ' ' ((v.drop 1).dropLast) []).filter
          (fun t => t ≠ "")).map
          (fun t => if t.data.take 2 = ['0', 'x'] then
            String.mk (t.data.drop 2) else t)
        match parseHexList toks with
        | some vals => (some ⟨propName, .bytes (vals.map (· % 256))⟩, rest')
        | none => (none, rest')
      else (some ⟨propName, .str (String.mk v)⟩, rest')

/-- The comment test `trimmed[0] == '/' && trimmed[1] == '/' ||
trimmed[0] == '*'`; `operator[]` at the length index reads the NUL
terminator, so a one-character `"/"` line is not a comment. -/
def isCommentLine (s : String) : Bool :=
  match s.data with
  | c0 :: c1 :: _ => (c0 = '/' && c1 = '/') || c0 = '*'
  | [c0] => c0 = '*'
  | [] => false

/-- A node being built: name, properties so far, children so far (the
C++ keeps a `shared_ptr` stack and mutates the nodes in place; attaching
a finished child on pop is observationally the same as the C++
`addChild` at push time). -/
abbrev DTSFrame := String × List DeviceTreeProperty × List DeviceTreeNode

def closeFrame (f : DTSFrame) : DeviceTreeNode :=
  .mk f.1 f.2.1 f.2.2

/-- Collapse the remaining open nodes at end of input: each unfinished
node is already a child of its parent in the C++ (it was attached by
`addChild` when pushed), so the bottom of the stack is returned with
every open node folded in. -/
def collapseGo : DTSFrame → List DTSFrame → DeviceTreeNode
  | f, [] => closeFrame f
  | f, (pn, pps, pcs) :: rest => collapseGo (pn, pps, pcs ++ [closeFrame f]) rest

/-- The inner loop of `DTSParser::parseDTSNode` (lines 319-370): for each
line, first a `};` closes the innermost node (or finishes the root),
blank/comment lines are skipped, a line containing `=` is a property
(a failed parse is caught, warned about and skipped), a line containing
`{` opens a child, and any other line is ignored.  The fuel dominates
the number of lines, each step consuming at least one. -/
def parseDTSBody : Nat → List String → List DTSFrame → Option DeviceTreeNode
  | 0, _, _ => none
  | _ + 1, [], stack =>
    match stack with
    | [] => none
    | f :: rest => some (collapseGo f rest)
  | fuel + 1, line :: rest, stack =>
    let trimmed := trimLeftStr line
    if strContainsSub trimmed "\x7d;" then
      match stack with
      | [] => none
      | [f] => some (closeFrame f)
      | f :: (pn, pps, pcs) :: stackRest =>
        parseDTSBody fuel rest ((pn, pps, pcs ++ [closeFrame f]) :: stackRest)
    else if trimmed = "" || isCommentLine trimmed then
      parseDTSBody fuel rest stack
    else if strContainsSub line "=" then
      match stack with
      | [] => none
      | (n, ps, cs) :: stackRest =>
        match parseDTSProperty line rest with
        | (some p, rest') =>
          parseDTSBody fuel rest' ((n, addProperty ps p, cs) :: stackRest)
        | (none, rest') => parseDTSBody fuel rest' ((n, ps, cs) :: stackRest)
    else if strContainsSub line "\x7b" then
      let childName :=
        match breakOnChar (Char.ofNat 123) line.data with
        | some (before, _) => String.mk (trimChars before)
        | none => ""
      parseDTSBody fuel rest ((childName, [], []) :: stack)
    else parseDTSBody fuel rest stack

/-- The scanning phase of `DTSParser::parseDTSNode` (lines 284-376):
skip blank, comment and `/dts-v1/;` lines until a line containing `{`
opens the first node, whose name is the text before the `{` (empty or
`/` normalised to `/`); everything after the `{` on that line is
discarded.  `none` when no node line is found. -/
def parseDTSNode : Nat → List String → Option DeviceTreeNode
  | 0, _ => none
  | _ + 1, [] => none
  | fuel + 1, line :: rest =>
    let trimmed := trimLeftStr line
    if trimmed = "" || isCommentLine trimmed then parseDTSNode fuel rest
    else if strContainsSub line "/dts-v1/;" then parseDTSNode fuel rest
    else if strContainsSub line "\x7b" then
      let nodeName0 :=
        match breakOnChar (Char.ofNat 123) line.data with
        | some (before, _) => String.mk (trimChars before)
        | none => ""
      let nodeName := if nodeName0 = "" ∨ nodeName0 = "/" then "/" else nodeName0
      parseDTSBody fuel rest [(nodeName, [], [])]
    else parseDTSNode fuel rest

/-- `DTSParser::parse` / `parseDTSFile` (lines 251-282) on a list of
lines. -/
def parseDTS (lines : List String) : Option DeviceTree :=
  match parseDTSNode (lines.length + 1) lines with
  | some root => some ⟨root, ""⟩
  | none => none

/-! ## Full paths and path lookup (`DeviceTree.cpp` lines 147-201)

A node inside a tree is addressed by its index path from the root; the
C++ parent chain of that node consists of exactly the nodes along this
path. -/

/-- The accumulation loop of `DeviceTreeNode::getFullPath` (lines
156-163) over the root-first list of ancestor names. -/
def buildPath (comps : List String) : String :=
  comps.foldl (fun path comp => if comp = "/" then "/" else path ++ "/" ++ comp) ""

def nodeAt : DeviceTreeNode → List Nat → Option DeviceTreeNode
  | n, [] => some n
  | n, i :: is =>
    match n.children.get? i with
    | some c => nodeAt c is
    | none => none

/-- The names of the nodes strictly below the root along an index path. -/
def namesBelow : DeviceTreeNode → List Nat → List String
  | _, [] => []
  | n, i :: is =>
    match n.children.get? i with
    | some c => c.name :: namesBelow c is
    | none => []

/-- `DeviceTreeNode::getFullPath` for the node at `is` in `root`: the
parent chain yields the root-first name list, then the path is built by
the accumulation loop. -/
def getFullPath (root : DeviceTreeNode) (is : List Nat) : String :=
  buildPath (root.name :: namesBelow root is)

/-- The first child with the given name, as the inner loop of
`findNodeByPath` (lines 186-193) selects it. -/
def findFirstChild (cs : List DeviceTreeNode) (nm : String) :
    Option DeviceTreeNode :=
  cs.find? (fun c => c.name == nm)

def walkComponents : DeviceTreeNode → List String → Option DeviceTreeNode
  | cur, [] => some cur
  | cur, comp :: rest =>
    match findFirstChild cur.children comp with
    | some c => walkComponents c rest
    | none => none

/-- `currentPath = currentPath.substr(1)` when the path starts with
`/`. -/
def stripLead : List Char → List Char
  | c :: rest => if c = '/' then rest else c :: rest
  | [] => []

/-- `DeviceTreeNode::findNodeByPath` (lines 168-201): empty or `"/"`
resolves to the receiver; otherwise one leading `/` is stripped, the
path is split on `/`, empty components are skipped, and each remaining
component selects the first child with that name. -/
def findNodeByPath (root : DeviceTreeNode) (path : String) :
    Option DeviceTreeNode :=
  if path = "" ∨ path = "/" then some root
  else
    walkComponents root
      ((splitOnCharAux '/' (stripLead path.data) []).filter (fun s => s ≠ ""))

/-- Little-endian byte encoding of a 32-bit word, as the x86 host lays
it out; used to build concrete DTB buffers. -/
def u32le (n : Nat) : List Nat :=
  [n % 256, n / 256 % 256, n / 65536 % 256, n / 16777216 % 256]

/-- A well-formed 76-byte DTB: valid header (version 17, exact
`totalsize`), structure block `BEGIN_NODE ""`, `PROP len=4 nameoff=0`
with value `01 00 00 00`, `END_NODE`, `END`, strings block `"reg\0"`. -/
def dtbOneProp : List Nat :=
  u32le 0xd00dfeed ++ u32le 76 ++ u32le 40 ++ u32le 72 ++ u32le 40 ++
  u32le 17 ++ u32le 16 ++ u32le 0 ++ u32le 4 ++ u32le 32 ++
  u32le 1 ++ u32le 0 ++
  u32le 2 ++ u32le 4 ++ u32le 0 ++ u32le 1 ++
  u32le 3 ++ u32le 9 ++
  [114, 101, 103, 0]

/-! ## Statement-side helper notions -/

/-- The property-value classification in the spec's own words
(§4.1): "a zero-length value becomes an empty string; a value whose
final byte is NUL and whose preceding bytes are all printable ASCII
(32-126) becomes a string (trailing NUL stripped); otherwise the value
is stored as a raw byte sequence", written for comparison with the
code's `classifyPropValue`. -/
def specPropValueClassification (val : List Nat) : PropertyValue :=
  if val = [] then .str ""
  else if val.getLast? = some 0 ∧
      val.dropLast.all (fun c => 32 ≤ c && c ≤ 126) then
    .str (stringOfBytes val.dropLast)
  else .bytes val

/-- `"/"`-joined rendering of a name list, used to describe
`getFullPath`'s output. -/
def joinSlash : List String → String
  | [] => ""
  | s :: rest => "/" ++ s ++ joinSlash rest

/-- A node name that path reconstruction and lookup can round-trip:
nonempty, not the root marker, and free of the separator. -/
def goodName (s : String) : Prop :=
  s ≠ "" ∧ s ≠ "/" ∧ '/' ∉ s.data

/-- The index path `is` leads from `r` to `n`, every name on it is a
`goodName`, and at every step the selected child is the first among its
siblings with its name (path lookup always returns the first match, so
this is exactly the condition under which lookup can return `n`
itself). -/
def validFirstPath : DeviceTreeNode → List Nat → DeviceTreeNode → Prop
  | r, [], n => r = n
  | r, i :: is, n =>
    match r.children.get? i with
    | some c => goodName c.name ∧ findFirstChild r.children c.name = some c ∧
        validFirstPath c is n
    | none => False

/-! # Theorems -/

/-! ## `strLt` is a strict total order -/

theorem charToNat_inj {c d : Char} (h : c.toNat = d.toNat) : c = d := by
  have hh := Char.ofNat_toNat c
  rw [h, Char.ofNat_toNat] at hh
  exact hh.symm

theorem charListLt_irrefl : ∀ (l : List Char), charListLt l l = false := by
  intro l
  induction l with
  | nil => rfl
  | cons c cs ih =>
    simp only [charListLt, Nat.lt_irrefl, if_false]
    exact ih

theorem charListLt_trans : ∀ (a b c : List Char),
    charListLt a b = true → charListLt b c = true →
      charListLt a c = true := by
  intro a
  induction a with
  | nil =>
    intro b c h1 h2
    cases b with
    | nil => simp [charListLt] at h1
    | cons y ys =>
      cases c with
      | nil => simp [charListLt] at h2
      | cons z zs => rfl
  | cons x xs ih =>
    intro b c h1 h2
    cases b with
    | nil => simp [charListLt] at h1
    | cons y ys =>
      cases c with
      | nil => simp [charListLt] at h2
      | cons z zs =>
        simp only [charListLt] at h1 h2 ⊢
        rcases Nat.lt_trichotomy x.toNat y.toNat with hxy | hxy | hxy
        · rcases Nat.lt_trichotomy y.toNat z.toNat with hyz | hyz | hyz
          · rw [if_pos (by omega)]
          · rw [if_pos (by omega)]
          · rw [if_neg (by omega), if_pos hyz] at h2
            exact absurd h2 (by simp)
        · rcases Nat.lt_trichotomy y.toNat z.toNat with hyz | hyz | hyz
          · rw [if_pos (by omega)]
          · rw [if_neg (by omega), if_neg (by omega)] at h1 h2 ⊢
            exact ih ys zs h1 h2
          · rw [if_neg (by omega), if_pos hyz] at h2
            exact absurd h2 (by simp)
        · rw [if_neg (by omega), if_pos hxy] at h1
          exact absurd h1 (by simp)

theorem charListLt_eq_of_both_false : ∀ (a b : List Char),
    charListLt a b = false → charListLt b a = false → a = b := by
  intro a
  induction a with
  | nil =>
    intro b h1 _
    cases b with
    | nil => rfl
    | cons y ys => simp [charListLt] at h1
  | cons x xs ih =>
    intro b h1 h2
    cases b with
    | nil => simp [charListLt] at h2
    | cons y ys =>
      simp only [charListLt] at h1 h2
      rcases Nat.lt_trichotomy x.toNat y.toNat with hxy | hxy | hxy
      · rw [if_pos hxy] at h1
        exact absurd h1 (by simp)
      · rw [if_neg (by omega), if_neg (by omega)] at h1 h2
        rw [charToNat_inj hxy, ih ys h1 h2]
      · rw [if_pos hxy] at h2
        exact absurd h2 (by simp)

theorem strExt {s t : String} (h : s.data = t.data) : s = t := by
  obtain ⟨sd⟩ := s
  obtain ⟨td⟩ := t
  cases h
  rfl

theorem strLt_trans {a b c : String} (h1 : strLt a b = true)
    (h2 : strLt b c = true) : strLt a c = true :=
  charListLt_trans a.data b.data c.data h1 h2

theorem strLt_ne {a b : String} (h : strLt a b = true) : a ≠ b := by
  intro he
  subst he
  rw [strLt, charListLt_irrefl] at h
  exact absurd h (by simp)

theorem strLt_total_eq {a b : String} (h1 : strLt a b = false)
    (h2 : strLt b a = false) : a = b :=
  strExt (charListLt_eq_of_both_false a.data b.data h1 h2)

/-! ## The sorted association list behaves like `std::map` -/

abbrev keyLt {α : Type} (a b : String × α) : Prop := strLt a.1 b.1 = true

theorem mem_insertSorted {α : Type} (k : String) (v : α) :
    ∀ (m : List (String × α)) (x : String × α),
      x ∈ insertSorted k v m → x = (k, v) ∨ x ∈ m := by
  intro m
  induction m with
  | nil =>
    intro x h
    simp only [insertSorted, List.mem_singleton] at h
    exact Or.inl h
  | cons hd tl ih =>
    intro x h
    obtain ⟨k', v'⟩ := hd
    simp only [insertSorted] at h
    split at h
    · rcases List.mem_cons.mp h with h1 | h1
      · exact Or.inl h1
      · exact Or.inr h1
    · split at h
      · rcases List.mem_cons.mp h with h1 | h1
        · exact Or.inl h1
        · exact Or.inr (List.mem_cons_of_mem _ h1)
      · rcases List.mem_cons.mp h with h1 | h1
        · exact Or.inr (h1 ▸ List.mem_cons_self _ _)
        · rcases ih x h1 with h2 | h2
          · exact Or.inl h2
          · exact Or.inr (List.mem_cons_of_mem _ h2)

theorem insertSorted_pairwise {α : Type} (k : String) (v : α) :
    ∀ (m : List (String × α)), m.Pairwise keyLt →
      (insertSorted k v m).Pairwise keyLt := by
  intro m
  induction m with
  | nil =>
    intro _
    simp [insertSorted]
  | cons hd tl ih =>
    intro hp
    obtain ⟨k', v'⟩ := hd
    rw [List.pairwise_cons] at hp
    obtain ⟨hhd, htl⟩ := hp
    simp only [insertSorted]
    split
    · rename_i hlt
      refine List.Pairwise.cons ?_ (List.Pairwise.cons hhd htl)
      intro y hy
      rcases List.mem_cons.mp hy with h1 | h1
      · rw [h1]; exact hlt
      · exact strLt_trans hlt (hhd y h1)
    · split
      · rename_i hnlt heq
        have heqq : k = k' := by simpa using heq
        refine List.Pairwise.cons ?_ htl
        intro y hy
        have := hhd y hy
        rw [keyLt, heqq]
        exact this
      · rename_i hnlt hne
        have hf1 : strLt k k' = false := by
          rwa [Bool.not_eq_true] at hnlt
        have hnee : k ≠ k' := by simpa using hne
        have hk : strLt k' k = true := by
          cases h3 : strLt k' k with
          | true => rfl
          | false => exact absurd (strLt_total_eq hf1 h3) hnee
        refine List.Pairwise.cons ?_ (ih htl)
        intro y hy
        rcases mem_insertSorted k v tl y hy with h1 | h1
        · rw [h1]; exact hk
        · exact hhd y h1

theorem toMap_pairwise {α : Type} (l : List (String × α)) :
    (toMap l).Pairwise keyLt := by
  have haux : ∀ (l : List (String × α)) (m : List (String × α)),
      m.Pairwise keyLt →
      (l.foldl (fun m kv => insertSorted kv.1 kv.2 m) m).Pairwise keyLt := by
    intro l
    induction l with
    | nil => intro m hm; exact hm
    | cons hd tl ih =>
      intro m hm
      exact ih _ (insertSorted_pairwise hd.1 hd.2 m hm)
  exact haux l [] List.Pairwise.nil

theorem lookupMap_self {α : Type} :
    ∀ (m : List (String × α)), m.Pairwise keyLt →
      ∀ (k : String) (v : α), (k, v) ∈ m → lookupMap k m = some v := by
  intro m
  induction m with
  | nil =>
    intro _ k v h
    simp at h
  | cons hd tl ih =>
    intro hp k v hmem
    obtain ⟨k', v'⟩ := hd
    rw [List.pairwise_cons] at hp
    obtain ⟨hhd, htl⟩ := hp
    rcases List.mem_cons.mp hmem with h1 | h1
    · obtain ⟨hk, hv⟩ := Prod.mk.injEq .. ▸ h1
      subst hk
      subst hv
      simp [lookupMap, List.find?]
    · have hk : strLt k' k = true := hhd (k, v) h1
      have hb : (k' == k) = false := by
        simp only [beq_eq_false_iff_ne]
        exact strLt_ne hk
      have hrec := ih htl k v h1
      rw [lookupMap] at hrec ⊢
      simp only [List.find?, hb]
      exact hrec

theorem concatMap_eq_nil {α β : Type} (f : α → List β) :
    ∀ (l : List α), (∀ a ∈ l, f a = []) → concatMap f l = [] := by
  intro l
  induction l with
  | nil => intro _; rfl
  | cons a tl ih =>
    intro h
    simp only [concatMap]
    rw [h a (List.mem_cons_self _ _),
      ih (fun x hx => h x (List.mem_cons_of_mem _ hx))]
    rfl

/-! ## The diff of a tree with itself -/

theorem propertiesEqual_self (p : DeviceTreeProperty) :
    propertiesEqual p p = true := by
  obtain ⟨n, v⟩ := p
  cases v <;>
    simp [propertiesEqual, DeviceTreeProperty.isString,
      DeviceTreeProperty.isBinary, DeviceTreeProperty.isCells,
      DeviceTreeProperty.isCells64]

theorem compareProperties_self (n : DeviceTreeNode) (path : String) :
    compareProperties n n path = [] := by
  rw [compareProperties]
  rw [concatMap_eq_nil, concatMap_eq_nil, List.append_nil]
  · intro kv hkv
    obtain ⟨k, p⟩ := kv
    have hlook : lookupMap k (propMapOf n) = some p :=
      lookupMap_self _ (toMap_pairwise _) k p hkv
    rw [hlook]
    simp
  · intro kv hkv
    obtain ⟨k, p⟩ := kv
    have hlook : lookupMap k (propMapOf n) = some p :=
      lookupMap_self _ (toMap_pairwise _) k p hkv
    rw [hlook]
    simp [propertiesEqual_self]

theorem compareNodes_self :
    ∀ (fuel : Nat) (n : DeviceTreeNode) (path : String),
      compareNodes fuel (some n) (some n) path = [] := by
  intro fuel
  induction fuel with
  | zero => intro n path; rfl
  | succ fuel ih =>
    intro n path
    show compareProperties n n path ++ _ ++ _ = []
    rw [compareProperties_self, List.nil_append]
    rw [concatMap_eq_nil, concatMap_eq_nil, List.append_nil]
    · intro kv hkv
      obtain ⟨k, c⟩ := kv
      have hlook : lookupMap k (childMapOf n) = some c :=
        lookupMap_self _ (toMap_pairwise _) k c hkv
      rw [hlook]
      simp
    · intro kv hkv
      obtain ⟨k, c⟩ := kv
      have hlook : lookupMap k (childMapOf n) = some c :=
        lookupMap_self _ (toMap_pairwise _) k c hkv
      rw [hlook]
      exact ih c _

/-- C3: diffing any tree against itself yields no diff entries — every
shared property compares equal (`propertiesEqual` is reflexive for each
of the four value kinds) and every child recursion meets the same
situation one level down. -/
theorem diff_tree_with_itself_empty (t : DeviceTree) :
    generateDiff (some t) (some t) = [] := by
  show compareNodes _ (some t.root) (some t.root) "/" = []
  exact compareNodes_self _ _ _

/-- C4: a diff with a missing (null) base or overlay tree reports
invalid and produces the empty, well-formed entry list; the computation
is total, so no error is raised or propagated. -/
theorem diff_missing_tree_invalid_and_empty
    (base overlay : Option DeviceTree) (h : base = none ∨ overlay = none) :
    diffIsValid base overlay = false ∧ generateDiff base overlay = [] := by
  rcases h with h | h
  · subst h
    refine ⟨rfl, ?_⟩
    cases overlay <;> rfl
  · subst h
    constructor
    · simp [diffIsValid]
    · cases base <;> rfl

theorem diff_missing_tree_invalid_and_empty_witness :
    diffIsValid none (some ⟨.mk "/" [] [], ""⟩) = false ∧
      generateDiff none (some ⟨.mk "/" [] [], ""⟩) = [] :=
  diff_missing_tree_invalid_and_empty none (some ⟨.mk "/" [] [], ""⟩)
    (Or.inl rfl)

/-! ## Concrete diff scenarios -/

/-- C2 counterexample: diffing base `{ / { }; }` against overlay
`{ / { child@0 { x = <1>; }; }; }` yields ONE entry, not two — the
added-node branch of `compareNodes` never emits entries for the added
node's properties — and its path is `"//child@0"`, not `"/child@0"`,
because the child path is `path + "/" + name` with `path = "/"`. -/
theorem diff_added_node_scenarioC_counterexample :
    (generateDiff (some ⟨.mk "/" [] [], ""⟩)
      (some ⟨.mk "/" [] [.mk "child@0" [⟨"x", .cells [1]⟩] []], ""⟩)).length
      = 1 ∧
    (generateDiff (some ⟨.mk "/" [] [], ""⟩)
      (some ⟨.mk "/" [] [.mk "child@0" [⟨"x", .cells [1]⟩] []], ""⟩)).map
        DiffEntry.path = ["//child@0"] :=
  ⟨rfl, rfl⟩

/-- C2 amended: that diff yields exactly one entry, the `Added`
node-level record at `"//child@0"`; no property-level entry is emitted
for the added node. -/
theorem diff_added_node_scenarioC_amended :
    generateDiff (some ⟨.mk "/" [] [], ""⟩)
      (some ⟨.mk "/" [] [.mk "child@0" [⟨"x", .cells [1]⟩] []], ""⟩) =
      [⟨.Added, "//child@0", "", "", "", "Node added: child@0"⟩] :=
  rfl

/-- C6 counterexample: in the scenario-B diff the recorded `oldValue`
is the quoted rendering `"1"` (three characters, quotes included), not
the bare text `1` — `getValueAsString` wraps string values in double
quotes. -/
theorem diff_modified_rendering_counterexample :
    (generateDiff (some ⟨.mk "/" [⟨"a", .str "1"⟩] [], ""⟩)
      (some ⟨.mk "/" [⟨"a", .str "2"⟩] [], ""⟩)).map DiffEntry.oldValue =
      ["\"1\""] ∧ ("\"1\"" : String) ≠ "1" :=
  ⟨rfl, by decide⟩

/-- C6 amended: diffing base `{ / { a = "1"; }; }` against overlay
`{ / { a = "2"; }; }` yields exactly one `Modified` entry at `"/"` for
property `a`, with the quote-wrapped renderings `"1"` and `"2"` as old
and new values. -/
theorem diff_scenarioB_amended :
    generateDiff (some ⟨.mk "/" [⟨"a", .str "1"⟩] [], ""⟩)
      (some ⟨.mk "/" [⟨"a", .str "2"⟩] [], ""⟩) =
      [⟨.Modified, "/", "a", "\"1\"", "\"2\"", "Property modified: a"⟩] :=
  rfl

/-- C7: with base children inserted as `b, a` and overlay children as
`a, c`, the diff walks the name-keyed maps in ascending lexicographic
order — first the overlay-keyed pass (the shared `a`, whose property
difference is reported, then the added `c`), then the base-only pass
(the removed `b`) — not insertion order. -/
theorem diff_child_order_lexicographic :
    generateDiff
      (some ⟨.mk "/" [] [.mk "b" [] [], .mk "a" [⟨"p", .str "x"⟩] []], ""⟩)
      (some ⟨.mk "/" [] [.mk "a" [⟨"p", .str "y"⟩] [], .mk "c" [] []], ""⟩) =
      [⟨.Modified, "//a", "p", "\"x\"", "\"y\"", "Property modified: p"⟩,
       ⟨.Added, "//c", "", "", "", "Node added: c"⟩,
       ⟨.Removed, "//b", "", "", "", "Node removed: b"⟩] :=
  rfl

/-! ## Text decoder scenarios -/

/-- C5 counterexample: the decoder is line-oriented and discards
everything after the `{` on a node-opening line, so the single-line
scenario-A input produces a root with ZERO properties, not two. -/
theorem dts_single_line_counterexample :
    parseDTS ["/ \x7b compatible = \"test,device\"; model = \"Test Device\"; \x7d;"]
      = some ⟨.mk "/" [] [], ""⟩ ∧
    (parseDTS ["/ \x7b compatible = \"test,device\"; model = \"Test Device\"; \x7d;"]).map
      (fun t => t.root.properties.length) = some 0 :=
  ⟨rfl, rfl⟩

/-- C5 amended: the same sample split across lines — node opener,
one property per line, closing `};` — decodes to a root named `"/"`
with exactly the properties `compatible = "test,device"` and
`model = "Test Device"` and zero children; the single-line form yields
an empty root. -/
theorem dts_scenarioA_amended :
    parseDTS ["/ \x7b", "compatible = \"test,device\";",
      "model = \"Test Device\";", "\x7d;"] =
      some ⟨.mk "/" [⟨"compatible", .str "test,device"⟩,
        ⟨"model", .str "Test Device"⟩] [], ""⟩ :=
  rfl

/-- C8 counterexample: a line without `=` (and without `{` or `};`) is
not fatal — the decode of the whole file SUCCEEDS, the offending line
is skipped, and the following property is still parsed. -/
theorem dts_missing_equals_counterexample :
    parseDTS ["/ \x7b", "this is a malformed property line",
      "a = \"1\";", "\x7d;"] =
      some ⟨.mk "/" [⟨"a", .str "1"⟩] [], ""⟩ :=
  rfl

/-- C8 amended: a line containing no `=`, no `{` and no `};` is never
treated as a property at all — the parser's line dispatch requires `=`
before attempting a property parse — so it is skipped and decoding
continues with the remaining lines and an unchanged node stack. -/
theorem dts_missing_equals_amended (fuel : Nat) (line : String)
    (rest : List String) (stack : List DTSFrame)
    (hclose : strContainsSub (trimLeftStr line) "\x7d;" = false)
    (heq : strContainsSub line "=" = false)
    (hbrace : strContainsSub line "\x7b" = false) :
    parseDTSBody (fuel + 1) (line :: rest) stack =
      parseDTSBody fuel rest stack := by
  simp only [parseDTSBody, hclose, heq, hbrace]
  simp

theorem dts_missing_equals_amended_witness :
    parseDTSBody 2 ["this is a malformed property line"] [("/", [], [])] =
      parseDTSBody 1 [] [("/", [], [])] :=
  dts_missing_equals_amended 1 "this is a malformed property line" []
    [("/", [], [])] rfl rfl rfl

/-! ## Binary decoder -/

/-- C9: the binary decoder's property-value classification agrees with
the spec's description everywhere — zero length gives an empty string
(never an empty byte sequence), a NUL-terminated all-printable value
gives the string without its NUL, and everything else is kept as the
raw bytes of the declared length. -/
theorem dtb_property_value_classification (val : List Nat) :
    classifyPropValue val = specPropValueClassification val := by
  rw [classifyPropValue, specPropValueClassification]
  by_cases h : val = []
  · subst h
    simp
  · have h0 : ¬ (val.length = 0) := fun hh => h (List.length_eq_zero.mp hh)
    rw [if_neg h0, if_neg h]
    have hdrop : val.dropLast = val.take (val.length - 1) :=
      List.dropLast_eq_take val
    by_cases hl : val.getLast? = some 0
    · rw [if_pos hl]
      by_cases hp : (val.take (val.length - 1)).all
          (fun c => 32 ≤ c && c ≤ 126) = true
      · rw [if_pos hp, if_pos ⟨hl, hdrop ▸ hp⟩, hdrop]
      · rw [if_neg hp, if_neg ?_]
        intro hcontr
        exact hp (hdrop ▸ hcontr.2)
    · rw [if_neg hl, if_neg ?_]
      intro hcontr
      exact hl hcontr.1

/-- One step of `parseDTBNode` on a `BEGIN_NODE` token, with
`nextOffset = offset` as at every call site: the token loop's guard
`currentOffset < nextOffset` is already false on entry
(`currentOffset` starts past the token and name), so the loop body
never runs and the parsed node has no properties and no children. -/
theorem parseDTBNode_loop_never_entered (data : List Nat)
    (fuel offset stringsOffset : Nat) (swap : Bool)
    (htok : readU32 swap data offset = 1) :
    parseDTBNode data (fuel + 1) offset offset stringsOffset swap =
      some (.mk (dtbNodeNameAt data offset) [] [], dtbNameEnd data offset) := by
  have hcur : ¬ (offset + 4 +
      ((cString data (offset + 4)).length + 1 + 3) / 4 * 4 < offset) := by
    omega
  cases fuel with
  | zero =>
    simp only [parseDTBNode, htok, parseDTBLoop]
    simp [hcur, dtbNodeNameAt, dtbNameEnd]
  | succ f =>
    simp only [parseDTBNode, htok, parseDTBLoop]
    simp [hcur, dtbNodeNameAt, dtbNameEnd]

/-- C1 (failing input): `dtbOneProp` passes every header check and its
structure block is `BEGIN_NODE ""`, `PROP` (`len = 4`, name `"reg"`),
`END_NODE`, `END` — by the claim the root must carry the property
`reg` — yet the parse returns a root with no properties and no
children, because the token loop's `currentOffset < nextOffset` guard
is false on entry at every call site. -/
theorem dtb_structure_tokens_never_parsed :
    parseDTBFile dtbOneProp = some ⟨.mk "/" [] [], ""⟩ :=
  rfl

/-! ## Path reconstruction and lookup -/

theorem strData_append (s t : String) : (s ++ t).data = s.data ++ t.data := by
  obtain ⟨sd⟩ := s
  obtain ⟨td⟩ := t
  rfl

theorem strMk_data (s : String) : String.mk s.data = s := by
  obtain ⟨d⟩ := s
  rfl

theorem buildPath_go (names : List String) :
    ∀ (init : String), (∀ s ∈ names, s ≠ "/") →
      List.foldl
        (fun path comp => if comp = "/" then "/" else path ++ "/" ++ comp)
        init names = init ++ joinSlash names := by
  induction names with
  | nil =>
    intro init _
    apply strExt
    rw [strData_append]
    simp [joinSlash]
  | cons s rest ih =>
    intro init h
    have hs : s ≠ "/" := h s (List.mem_cons_self ..)
    simp only [List.foldl_cons, if_neg hs]
    rw [ih _ (fun x hx => h x (List.mem_cons_of_mem _ hx))]
    apply strExt
    simp [strData_append, joinSlash, List.append_assoc]

theorem joinSlash_data : ∀ (names : List String),
    (joinSlash names).data = (names.map (fun s => '/' :: s.data)).flatten := by
  intro names
  induction names with
  | nil => rfl
  | cons s rest ih =>
    show (("/" ++ s) ++ joinSlash rest).data =
      ('/' :: s.data) ++ (rest.map (fun s => '/' :: s.data)).flatten
    rw [strData_append, strData_append, ih]
    rfl

theorem splitOnCharAux_no_delim (d : Char) :
    ∀ (w rest acc : List Char), (∀ c ∈ w, c ≠ d) →
      splitOnCharAux d (w ++ rest) acc =
        splitOnCharAux d rest (w.reverse ++ acc) := by
  intro w
  induction w with
  | nil =>
    intro rest acc _
    simp
  | cons c w ih =>
    intro rest acc h
    have hc : c ≠ d := h c (List.mem_cons_self ..)
    show splitOnCharAux d (c :: (w ++ rest)) acc = _
    rw [splitOnCharAux, if_neg hc]
    rw [ih rest (c :: acc) (fun x hx => h x (List.mem_cons_of_mem _ hx))]
    have hacc : w.reverse ++ (c :: acc) = (c :: w).reverse ++ acc := by
      simp
    rw [hacc]

theorem splitOnCharAux_join : ∀ (names : List String) (acc : List Char),
    (∀ s ∈ names, '/' ∉ s.data) →
      splitOnCharAux '/' ((names.map (fun s => '/' :: s.data)).flatten) acc =
        String.mk acc.reverse :: names := by
  intro names
  induction names with
  | nil =>
    intro acc _
    rfl
  | cons n rest ih =>
    intro acc h
    have hn : '/' ∉ n.data := h n (List.mem_cons_self ..)
    show String.mk acc.reverse ::
      splitOnCharAux '/' (n.data ++ (rest.map (fun s => '/' :: s.data)).flatten) [] =
      String.mk acc.reverse :: n :: rest
    rw [splitOnCharAux_no_delim '/' n.data _ []
      (fun c hc heq => hn (heq ▸ hc))]
    rw [ih _ (fun x hx => h x (List.mem_cons_of_mem _ hx))]
    rw [List.append_nil, List.reverse_reverse, strMk_data]

theorem filter_ne_empty_eq_self : ∀ (l : List String),
    (∀ s ∈ l, s ≠ "") → l.filter (fun s => s ≠ "") = l := by
  intro l
  induction l with
  | nil =>
    intro _
    rfl
  | cons s rest ih =>
    intro h
    have hs : s ≠ "" := h s (List.mem_cons_self ..)
    simp only [List.filter_cons]
    rw [if_pos (by simpa using hs)]
    rw [ih (fun x hx => h x (List.mem_cons_of_mem _ hx))]

theorem walk_valid : ∀ (is : List Nat) (r n : DeviceTreeNode),
    validFirstPath r is n → walkComponents r (namesBelow r is) = some n := by
  intro is
  induction is with
  | nil =>
    intro r n h
    have hrn : r = n := h
    subst hrn
    rfl
  | cons i is' ih =>
    intro r n h
    cases hg : r.children.get? i with
    | none => simp only [validFirstPath, hg] at h
    | some c =>
      simp only [validFirstPath, hg] at h
      obtain ⟨hgood, hfirst, hrest⟩ := h
      simp only [namesBelow, hg]
      simp only [walkComponents, hfirst]
      exact ih c n hrest

theorem namesBelow_good : ∀ (is : List Nat) (r n : DeviceTreeNode),
    validFirstPath r is n → ∀ s ∈ namesBelow r is, goodName s := by
  intro is
  induction is with
  | nil =>
    intro r n _ s hs
    simp [namesBelow] at hs
  | cons i is' ih =>
    intro r n h s hs
    cases hg : r.children.get? i with
    | none => simp only [validFirstPath, hg] at h
    | some c =>
      simp only [validFirstPath, hg] at h
      obtain ⟨hgood, hfirst, hrest⟩ := h
      simp only [namesBelow, hg, List.mem_cons] at hs
      rcases hs with hs | hs
      · exact hs ▸ hgood
      · exact ih c n hrest s hs

/-- C10 amended: path round-tripping holds for the nodes that lookup
can possibly return — those whose path steps each select the first
sibling of their name (in particular all nodes of a tree with unique,
well-formed sibling names): `findNodeByPath (getFullPath n) = n`.
With duplicate sibling names the lookup returns the first match, which
can differ from `n` (see the counterexample). -/
theorem findNodeByPath_getFullPath_amended (r : DeviceTreeNode)
    (is : List Nat) (n : DeviceTreeNode) (hroot : r.name = "/")
    (hvalid : validFirstPath r is n) :
    findNodeByPath r (getFullPath r is) = some n := by
  cases is with
  | nil =>
    have hrn : r = n := hvalid
    subst hrn
    have hpath : getFullPath r [] = "/" := by
      rw [getFullPath, hroot]
      rfl
    rw [hpath]
    simp [findNodeByPath]
  | cons i is' =>
    cases hg : r.children.get? i with
    | none => simp only [validFirstPath, hg] at hvalid
    | some c =>
      have hvalid' := hvalid
      simp only [validFirstPath, hg] at hvalid'
      obtain ⟨hgood, hfirst, hrest⟩ := hvalid'
      have hnames : namesBelow r (i :: is') = c.name :: namesBelow c is' := by
        simp only [namesBelow, hg]
      have hgoodall : ∀ s ∈ namesBelow r (i :: is'), goodName s :=
        namesBelow_good _ r n hvalid
      have hne_root : ∀ s ∈ namesBelow r (i :: is'), s ≠ "/" :=
        fun s hs => (hgoodall s hs).2.1
      have hne_empty : ∀ s ∈ namesBelow r (i :: is'), s ≠ "" :=
        fun s hs => (hgoodall s hs).1
      have hnoslash : ∀ s ∈ namesBelow r (i :: is'), '/' ∉ s.data :=
        fun s hs => (hgoodall s hs).2.2
      have hfull : getFullPath r (i :: is') =
          "/" ++ joinSlash (namesBelow r (i :: is')) := by
        rw [getFullPath, hroot]
        have hstep : buildPath ("/" :: namesBelow r (i :: is')) =
            List.foldl
              (fun path comp => if comp = "/" then "/" else path ++ "/" ++ comp)
              "/" (namesBelow r (i :: is')) := rfl
        rw [hstep]
        exact buildPath_go _ "/" hne_root
      have hdata : (getFullPath r (i :: is')).data =
          '/' :: ((namesBelow r (i :: is')).map (fun s => '/' :: s.data)).flatten := by
        rw [hfull, strData_append, joinSlash_data]
        rfl
      have hdata2 : (getFullPath r (i :: is')).data =
          '/' :: '/' :: (c.name.data ++
            ((namesBelow c is').map (fun s => '/' :: s.data)).flatten) := by
        rw [hdata, hnames]
        rfl
      have hne1 : getFullPath r (i :: is') ≠ "" := by
        intro hh
        rw [hh] at hdata2
        simp at hdata2
      have hne2 : getFullPath r (i :: is') ≠ "/" := by
        intro hh
        rw [hh] at hdata2
        simp at hdata2
      rw [findNodeByPath, if_neg (by push_neg; exact ⟨hne1, hne2⟩)]
      have hstrip : stripLead (getFullPath r (i :: is')).data =
          ((namesBelow r (i :: is')).map (fun s => '/' :: s.data)).flatten := by
        rw [hdata]
        simp [stripLead]
      rw [hstrip]
      rw [splitOnCharAux_join _ _ hnoslash]
      have hmkempty : String.mk (List.reverse ([] : List Char)) = "" := rfl
      rw [hmkempty]
      simp only [List.filter_cons]
      rw [if_neg (by simp)]
      rw [filter_ne_empty_eq_self _ hne_empty]
      exact walk_valid _ r n hvalid

theorem findNodeByPath_getFullPath_amended_witness :
    findNodeByPath (.mk "/" [] [.mk "soc" [] [.mk "uart" [] []]])
      (getFullPath (.mk "/" [] [.mk "soc" [] [.mk "uart" [] []]]) [0, 0]) =
      some (.mk "uart" [] []) :=
  findNodeByPath_getFullPath_amended _ [0, 0] _ rfl
    ⟨⟨by decide, by decide, by decide⟩, rfl,
     ⟨by decide, by decide, by decide⟩, rfl, rfl⟩

/-- C10 counterexample: with two sibling nodes both named `x`, the
second sibling's full path `"//x"` resolves to the FIRST sibling, a
different node, so `findNodeByPath (n.getFullPath()) == n` fails for
the second sibling. -/
theorem findNodeByPath_duplicate_name_counterexample :
    findNodeByPath
        (.mk "/" [] [.mk "x" [⟨"p", .str "1"⟩] [], .mk "x" [] []])
        (getFullPath
          (.mk "/" [] [.mk "x" [⟨"p", .str "1"⟩] [], .mk "x" [] []]) [1]) =
      some (.mk "x" [⟨"p", .str "1"⟩] []) ∧
    nodeAt (.mk "/" [] [.mk "x" [⟨"p", .str "1"⟩] [], .mk "x" [] []]) [1] =
      some (.mk "x" [] []) ∧
    DeviceTreeNode.mk "x" [⟨"p", PropertyValue.str "1"⟩] [] ≠
      DeviceTreeNode.mk "x" [] [] := by
  refine ⟨rfl, rfl, ?_⟩
  intro h
  injection h with h1 h2 h3
  exact absurd h2 (by simp)

end DTE
